/-
  Verification of the draw-it / tegne renderer core against its
  natural-language specification.

  The Rust sources are shallowly embedded: each Rust struct becomes a Lean
  structure, each method a Lean function on that structure; machine integers
  become Nat/Int; fallible or panicking code returns Option; f32 values that
  the claims never compute with are modelled as rationals; GPU handles
  (vk::ImageView, vk::DescriptorSet, ...) are type parameters.
-/
import Mathlib

set_option autoImplicit false

namespace DrawIt

/-! ## ImageUniform (src/draw-it/src/pipeline/uniform.rs)

`ImageUniform` owns a growable list of optional image views (`images`), a
skybox binding, a dirty flag (`should_update`) and the precomputed sampler
combinations.  `V` stands for `vk::ImageView`. -/

/-- `SamplerFilter` from the pipeline module (Linear / Nearest). -/
inductive SamplerFilter where
  | linear
  | nearest
  deriving DecidableEq, Repr

/-- `SamplerAddress` from the pipeline module (Repeat / Clamp);
`repeatMode` stands for the Rust variant `Repeat`. -/
inductive SamplerAddress where
  | repeatMode
  | clampMode
  deriving DecidableEq, Repr

/-- `SamplerMipmaps` from the pipeline module (Enabled / Disabled). -/
inductive SamplerMipmaps where
  | enabled
  | disabled
  deriving DecidableEq, Repr

/-- `SamplerOptions`: the options a `Sampler` is created from; a `Sampler`
is modelled by the options it was built with. -/
structure SamplerOptions where
  anisotropy : ℚ
  filter : SamplerFilter
  address : SamplerAddress
  mipmaps : SamplerMipmaps
  deriving DecidableEq, Repr

/-- `ImageUniform` state: sampler combinations, image slots, skybox slot and
the `should_update` dirty flag. -/
structure ImageUniform (V : Type) where
  samplerCombinations : List SamplerOptions
  images : List (Option V)
  skybox : Option V
  shouldUpdate : Bool
  deriving DecidableEq, Repr

/-- The index found by
`self.images.iter().position(|img| img.is_none()).unwrap_or(next_index)`
in `ImageUniform::add`: the first tombstoned slot, or the length of the
slot list when every slot is populated. -/
def firstFreeIndex {V : Type} : List (Option V) → Nat
  | [] => 0
  | none :: _ => 0
  | some _ :: rest => firstFreeIndex rest + 1

/-- The sampler combinations built in `ImageUniform::new`: the nested loops
over filter (Linear, Nearest), address (Repeat, Clamp) and mipmaps
(Enabled, Disabled), in that nesting order. -/
def samplerCombinationList (anisotropy : ℚ) : List SamplerOptions :=
  [SamplerFilter.linear, SamplerFilter.nearest].flatMap fun filter =>
    [SamplerAddress.repeatMode, SamplerAddress.clampMode].flatMap fun address =>
      [SamplerMipmaps.enabled, SamplerMipmaps.disabled].map fun mipmaps =>
        { anisotropy, filter, address, mipmaps }

/-- `ImageUniform::new`: empty slot list, no skybox, dirty flag set, the
eight sampler combinations precomputed. -/
def ImageUniform.new (V : Type) (anisotropy : ℚ) : ImageUniform V where
  samplerCombinations := samplerCombinationList anisotropy
  images := []
  skybox := none
  shouldUpdate := true

/-- `ImageUniform::add`: first-fit scan for a tombstoned slot; appends when
none is free.  Returns the new state and the assigned slot index. -/
def ImageUniform.add {V : Type} (s : ImageUniform V) (image : V) :
    ImageUniform V × Nat :=
  let nextIndex := s.images.length
  let index := firstFreeIndex s.images
  if index = nextIndex then
    ({ s with images := s.images ++ [some image], shouldUpdate := true }, index)
  else
    ({ s with images := s.images.set index (some image), shouldUpdate := true }, index)

/-- `ImageUniform::remove`: tombstones the slot.  `none` models the
debug-fatal out-of-bounds panic (`debug_assert!` plus the indexing). -/
def ImageUniform.remove {V : Type} (s : ImageUniform V) (index : Nat) :
    Option (ImageUniform V) :=
  if index < s.images.length then
    some { s with images := s.images.set index none, shouldUpdate := true }
  else
    none

/-- `ImageUniform::set_skybox`. -/
def ImageUniform.setSkybox {V : Type} (s : ImageUniform V) (image : V) :
    ImageUniform V :=
  { s with skybox := some image, shouldUpdate := true }

/-- Slot `i` is currently free (tombstoned) and every lower slot is
populated: the condition under which `add` must return `i`. -/
def IsLowestFree {V : Type} (l : List (Option V)) (i : Nat) : Prop :=
  l[i]? = some none ∧ ∀ j, j < i → l[j]? ≠ some none

/-! ### Lemmas about the first-fit scan -/

theorem firstFreeIndex_le_length {V : Type} (l : List (Option V)) :
    firstFreeIndex l ≤ l.length := by
  induction l with
  | nil => simp [firstFreeIndex]
  | cons hd tl ih =>
    cases hd with
    | none => simp [firstFreeIndex]
    | some v => simpa [firstFreeIndex] using ih

theorem firstFreeIndex_eq_of_isLowestFree {V : Type} {l : List (Option V)} {i : Nat}
    (h : IsLowestFree l i) : firstFreeIndex l = i := by
  induction l generalizing i with
  | nil => simp [IsLowestFree] at h
  | cons hd tl ih =>
    obtain ⟨hfree, hbelow⟩ := h
    cases hd with
    | none =>
      cases i with
      | zero => rfl
      | succ n =>
        exact absurd (by simp) (hbelow 0 (Nat.succ_pos n))
    | some v =>
      cases i with
      | zero => simp at hfree
      | succ n =>
        have : IsLowestFree tl n := by
          refine ⟨by simpa using hfree, ?_⟩
          intro j hj
          have := hbelow (j + 1) (Nat.succ_lt_succ hj)
          simpa using this
        simp [firstFreeIndex, ih this]

theorem getElem?_firstFreeIndex_of_lt {V : Type} {l : List (Option V)}
    (h : firstFreeIndex l < l.length) : l[firstFreeIndex l]? = some none := by
  induction l with
  | nil => simp at h
  | cons hd tl ih =>
    cases hd with
    | none => simp [firstFreeIndex]
    | some v =>
      simp only [firstFreeIndex, List.length_cons] at h ⊢
      have := ih (Nat.lt_of_succ_lt_succ h)
      simpa using this

theorem no_free_of_firstFreeIndex_eq_length {V : Type} {l : List (Option V)}
    (h : firstFreeIndex l = l.length) : ∀ j : Nat, l[j]? ≠ some none := by
  induction l with
  | nil => intro j; simp
  | cons hd tl ih =>
    cases hd with
    | none => simp [firstFreeIndex] at h
    | some v =>
      simp only [firstFreeIndex, List.length_cons, Nat.succ_inj'] at h
      intro j
      cases j with
      | zero => simp
      | succ n => simpa using ih h n

theorem firstFreeIndex_lt_of_free {V : Type} {l : List (Option V)} {j : Nat}
    (h : l[j]? = some none) : firstFreeIndex l < l.length := by
  rcases Nat.lt_or_ge (firstFreeIndex l) l.length with hlt | hge
  · exact hlt
  · have heq : firstFreeIndex l = l.length :=
      Nat.le_antisymm (firstFreeIndex_le_length l) hge
    exact absurd h (no_free_of_firstFreeIndex_eq_length heq j)

theorem add_snd_eq_firstFreeIndex {V : Type} (s : ImageUniform V) (v : V) :
    (s.add v).2 = firstFreeIndex s.images := by
  simp only [ImageUniform.add]
  split <;> rfl

theorem add_images_of_lt {V : Type} (s : ImageUniform V) (v : V)
    (h : firstFreeIndex s.images < s.images.length) :
    (s.add v).1.images = s.images.set (firstFreeIndex s.images) (some v) := by
  simp only [ImageUniform.add]
  split
  · omega
  · rfl

theorem add_images_of_eq {V : Type} (s : ImageUniform V) (v : V)
    (h : firstFreeIndex s.images = s.images.length) :
    (s.add v).1.images = s.images ++ [some v] := by
  simp only [ImageUniform.add]
  split
  · rfl
  · omega

theorem lt_length_of_getElem?_free {V : Type} {l : List (Option V)} {i : Nat}
    (h : l[i]? = some none) : i < l.length := by
  by_contra hk
  rw [List.getElem?_eq_none (Nat.le_of_not_lt hk)] at h
  exact Option.noConfusion h

/-! ### C2: first-fit slot reuse in `ImageUniform::add` / `remove` -/

/-- C2: `ImageUniform::add` is first-fit by ascending index: it returns the
lowest currently-free slot when one exists (and writes the image there),
appends a fresh slot at index `len` exactly when no slot is free, and leaves
every other slot unchanged; consequently `remove(i)` immediately followed by
`add(v)` returns `i` whenever `i` is the lowest currently-free index, with
all other slots keeping their contents. -/
theorem imageUniform_add_first_fit {V : Type} (s : ImageUniform V) (v : V) :
    (∀ i : Nat, IsLowestFree s.images i →
      (s.add v).2 = i ∧ (s.add v).1.images[i]? = some (some v)) ∧
    ((∀ j : Nat, s.images[j]? ≠ some none) →
      (s.add v).2 = s.images.length ∧ (s.add v).1.images = s.images ++ [some v]) ∧
    ((∃ j : Nat, s.images[j]? = some none) →
      (s.add v).2 < s.images.length ∧
      (s.add v).1.images.length = s.images.length) ∧
    (∀ j : Nat, j ≠ (s.add v).2 → (s.add v).1.images[j]? = s.images[j]?) ∧
    (∀ (i : Nat) (s' : ImageUniform V), s.remove i = some s' →
      (IsLowestFree s'.images i → (s'.add v).2 = i) ∧
      (∀ j : Nat, j ≠ i → s'.images[j]? = s.images[j]?)) := by
  refine ⟨?_, ?_, ?_, ?_, ?_⟩
  · intro i hi
    have hff : firstFreeIndex s.images = i := firstFreeIndex_eq_of_isLowestFree hi
    have hlt : i < s.images.length := lt_length_of_getElem?_free hi.1
    refine ⟨by rw [add_snd_eq_firstFreeIndex, hff], ?_⟩
    rw [add_images_of_lt s v (hff ▸ hlt), hff]
    exact List.getElem?_set_self hlt
  · intro hnone
    have heq : firstFreeIndex s.images = s.images.length := by
      rcases Nat.lt_or_ge (firstFreeIndex s.images) s.images.length with hlt | hge
      · exact absurd (getElem?_firstFreeIndex_of_lt hlt) (hnone _)
      · exact Nat.le_antisymm (firstFreeIndex_le_length s.images) hge
    exact ⟨by rw [add_snd_eq_firstFreeIndex, heq], add_images_of_eq s v heq⟩
  · rintro ⟨j, hj⟩
    have hlt := firstFreeIndex_lt_of_free hj
    refine ⟨by rw [add_snd_eq_firstFreeIndex]; exact hlt, ?_⟩
    rw [add_images_of_lt s v hlt]
    exact List.length_set ..
  · intro j hj
    rw [add_snd_eq_firstFreeIndex] at hj
    rcases Nat.lt_or_ge (firstFreeIndex s.images) s.images.length with hlt | hge
    · rw [add_images_of_lt s v hlt]
      exact List.getElem?_set_ne (fun h => hj h.symm)
    · have heq := Nat.le_antisymm (firstFreeIndex_le_length s.images) hge
      rw [add_images_of_eq s v heq]
      rcases Nat.lt_or_ge j s.images.length with hjlt | hjge
      · exact List.getElem?_append_left hjlt
      · have hjgt : s.images.length < j := by omega
        rw [List.getElem?_eq_none (l := s.images) (by omega)]
        rw [List.getElem?_eq_none]
        simp only [List.length_append, List.length_cons, List.length_nil]
        omega
  · intro i s' hrem
    unfold ImageUniform.remove at hrem
    split at hrem
    · cases hrem
      refine ⟨fun hlow => ?_, fun j hj => ?_⟩
      · rw [add_snd_eq_firstFreeIndex, firstFreeIndex_eq_of_isLowestFree hlow]
      · exact List.getElem?_set_ne (fun h => hj h.symm)
    · exact Option.noConfusion hrem

/-- C2 witness: on the concrete state with slots `[some 7, some 8, some 9]`,
removing slot `1` and adding `5` reuses slot `1`, and the other slots keep
their contents. -/
theorem imageUniform_add_first_fit_witness :
    let s : ImageUniform Nat :=
      { samplerCombinations := [], images := [some 7, some 8, some 9],
        skybox := none, shouldUpdate := false }
    ∃ s' : ImageUniform Nat, s.remove 1 = some s' ∧
      (s'.add 5).2 = 1 ∧ s'.images[0]? = s.images[0]? := by
  intro s
  have h := imageUniform_add_first_fit s 5
  have hrem : s.remove 1 =
      some { samplerCombinations := [], images := [some 7, none, some 9],
             skybox := none, shouldUpdate := true } := by rfl
  refine ⟨_, hrem, ?_, ?_⟩
  · refine (h.2.2.2.2 1 _ hrem).1 ⟨by decide, ?_⟩
    intro j hj
    interval_cases j
    decide
  · exact (h.2.2.2.2 1 _ hrem).2 0 (by decide)

/-! ### C3: `ImageUniform::update_if_needed` -/

/-- The batched descriptor-set write issued by `update_if_needed`: the 100
image infos (binding 0), the sampler infos (binding 1) and the optional
skybox info (binding 2). -/
structure DescriptorWrites (V : Type) where
  imageInfos : List V
  samplerInfos : List SamplerOptions
  skyboxInfo : Option V
  deriving DecidableEq, Repr

/-- The per-slot image resolution in `update_if_needed`:
`match self.images.get(i) { Some(Some(img)) => *img, _ => self.images[0].expect(..) }`;
`none` models the fatal panic (empty list or tombstoned slot 0). -/
def slotImage {V : Type} (s : ImageUniform V) (i : Nat) : Option V :=
  match s.images[i]? with
  | some (some img) => some img
  | _ => (s.images[0]?).bind id

/-- The total per-slot resolution available once slot 0 holds `v0`. -/
def slotResolved {V : Type} (s : ImageUniform V) (v0 : V) (i : Nat) : V :=
  match s.images[i]? with
  | some (some img) => img
  | _ => v0

/-- `ImageUniform::update_if_needed`: when the dirty flag is set, issues one
batched descriptor write over all 100 image slots plus samplers plus the
skybox, and clears the flag; `none` models the fatal `expect` when a write
is needed while slot 0 is empty.  When the flag is clear, no write. -/
def ImageUniform.updateIfNeeded {V : Type} (s : ImageUniform V) :
    Option (ImageUniform V × Option (DescriptorWrites V)) :=
  if s.shouldUpdate then
    match (List.range 100).mapM (slotImage s) with
    | some infos =>
        some ({ s with shouldUpdate := false },
          some { imageInfos := infos, samplerInfos := s.samplerCombinations,
                 skyboxInfo := s.skybox })
    | none => none
  else
    some (s, none)

/-- The mutating calls that can occur on an `ImageUniform` between two
applies: `add`, `remove` and `set_skybox`. -/
inductive ImageOp (V : Type) where
  | add (v : V)
  | remove (i : Nat)
  | setSkybox (v : V)

/-- One mutating call (`remove` may be debug-fatal, hence `Option`). -/
def applyImageOp {V : Type} (s : ImageUniform V) : ImageOp V → Option (ImageUniform V)
  | .add v => some (s.add v).1
  | .remove i => s.remove i
  | .setSkybox v => some (s.setSkybox v)

/-- A sequence of mutating calls. -/
def runImageOps {V : Type} (s : ImageUniform V) : List (ImageOp V) → Option (ImageUniform V)
  | [] => some s
  | op :: rest => (applyImageOp s op).bind fun s' => runImageOps s' rest

theorem applyImageOp_shouldUpdate {V : Type} {s s' : ImageUniform V} {op : ImageOp V}
    (h : applyImageOp s op = some s') : s'.shouldUpdate = true := by
  cases op with
  | add v =>
    simp only [applyImageOp, Option.some_inj] at h
    subst h
    simp only [ImageUniform.add]
    split <;> rfl
  | remove i =>
    simp only [applyImageOp, ImageUniform.remove] at h
    split at h
    · cases h; rfl
    · exact Option.noConfusion h
  | setSkybox v =>
    simp only [applyImageOp, ImageUniform.setSkybox, Option.some_inj] at h
    subst h
    rfl

theorem runImageOps_shouldUpdate {V : Type} {s s' : ImageUniform V}
    {ops : List (ImageOp V)} (h : runImageOps s ops = some s') (hne : ops ≠ []) :
    s'.shouldUpdate = true := by
  induction ops generalizing s with
  | nil => exact absurd rfl hne
  | cons op rest ih =>
    simp only [runImageOps, Option.bind_eq_bind, Option.bind_eq_some] at h
    obtain ⟨s₁, h₁, h₂⟩ := h
    cases rest with
    | nil =>
      simp only [runImageOps, Option.some_inj] at h₂
      subst h₂
      exact applyImageOp_shouldUpdate h₁
    | cons op₂ rest₂ => exact ih h₂ (by simp)

theorem mapM_slotImage_of_slot0 {V : Type} {s : ImageUniform V} {v0 : V}
    (h0 : s.images[0]? = some (some v0)) (l : List Nat) :
    l.mapM (slotImage s) = some (l.map (slotResolved s v0)) := by
  induction l with
  | nil => rfl
  | cons i rest ih =>
    rw [List.mapM_cons, ih]
    have : slotImage s i = some (slotResolved s v0 i) := by
      unfold slotImage slotResolved
      match hi : s.images[i]? with
      | some (some img) => rfl
      | some none => simp [h0]
      | none => simp [h0]
    simp [this]

theorem mapM_slotImage_none {V : Type} {s : ImageUniform V}
    (h0 : (s.images[0]?).bind id = none) :
    (List.range 100).mapM (slotImage s) = none := by
  have h00 : slotImage s 0 = none := by
    unfold slotImage
    match hi : s.images[0]? with
    | some (some img) => rw [hi] at h0; simp at h0
    | some none => simp
    | none => simp
  have : List.range 100 = 0 :: List.range' 1 99 := by
    rw [List.range_eq_range', List.range'_succ]
  rw [this, List.mapM_cons, h00]
  rfl

/-- C3: `update_if_needed` issues a descriptor-set write exactly when the
dirty flag is set — the flag is clear after an apply and set by every
`add`/`remove`/`set_skybox` since — and the write is one batch covering all
100 image slots (tombstoned/absent slots repeat slot 0's image), all
precomputed sampler combinations (8 built at construction) and the skybox
binding if set; it is fatal when a write is needed while slot 0 is empty. -/
theorem imageUniform_update_write_iff {V : Type} :
    (∀ s : ImageUniform V, s.shouldUpdate = false → s.updateIfNeeded = some (s, none)) ∧
    (∀ (s s' : ImageUniform V) (ops : List (ImageOp V)),
      runImageOps s ops = some s' → ops ≠ [] → s'.shouldUpdate = true) ∧
    (∀ (s : ImageUniform V) (v0 : V), s.shouldUpdate = true →
      s.images[0]? = some (some v0) →
      ∃ w : DescriptorWrites V,
        s.updateIfNeeded = some ({ s with shouldUpdate := false }, some w) ∧
        w.imageInfos.length = 100 ∧
        (∀ i : Nat, i < 100 → w.imageInfos[i]? = some (slotResolved s v0 i)) ∧
        w.samplerInfos = s.samplerCombinations ∧
        w.skyboxInfo = s.skybox) ∧
    (∀ s : ImageUniform V, s.shouldUpdate = true →
      (s.images[0]?).bind id = none → s.updateIfNeeded = none) ∧
    (∀ a : ℚ, ((ImageUniform.new V a).samplerCombinations).length = 8 ∧
      (ImageUniform.new V a).shouldUpdate = true) := by
  refine ⟨?_, ?_, ?_, ?_, ?_⟩
  · intro s h
    simp [ImageUniform.updateIfNeeded, h]
  · intro s s' ops h hne
    exact runImageOps_shouldUpdate h hne
  · intro s v0 hdirty h0
    refine ⟨{ imageInfos := (List.range 100).map (slotResolved s v0),
              samplerInfos := s.samplerCombinations, skyboxInfo := s.skybox },
            ?_, ?_, ?_, rfl, rfl⟩
    · simp only [ImageUniform.updateIfNeeded, hdirty, if_true,
        mapM_slotImage_of_slot0 h0]
    · simp
    · intro i hi
      rw [List.getElem?_map, List.getElem?_range hi]
      rfl
  · intro s hdirty h0
    simp only [ImageUniform.updateIfNeeded, hdirty, if_true, mapM_slotImage_none h0]
  · intro a
    exact ⟨rfl, rfl⟩

/-- C3 witness: a freshly constructed uniform with one added image is dirty;
applying the pending update clears the flag and yields one batch whose 100
image infos all repeat the single image, with the 8 sampler combinations. -/
theorem imageUniform_update_write_iff_witness :
    let s1 := ((ImageUniform.new Nat 1).add 42).1
    ∃ w : DescriptorWrites Nat,
      s1.updateIfNeeded = some ({ s1 with shouldUpdate := false }, some w) ∧
      w.imageInfos.length = 100 ∧ w.imageInfos[7]? = some 42 ∧
      w.samplerInfos.length = 8 := by
  intro s1
  obtain ⟨w, hw, hlen, hget, hsamp, _⟩ :=
    (imageUniform_update_write_iff (V := Nat)).2.2.1 s1 42 rfl rfl
  refine ⟨w, hw, hlen, ?_, ?_⟩
  · rw [hget 7 (by decide)]
    rfl
  · rw [hsamp]
    rfl

/-! ## ResourceManager (src/draw-it/src/resource/mod.rs)

Textures, shaders and fonts live in reference-counted `Storage` slots;
materials, meshes and framebuffers live in `HashMap<Index, _>` maps keyed
by a shared monotonically increasing counter `next_index`.  The `Storage`
and `Index` modules are not under `src/`; an entry is reduced to its
reference count (`Storage::count`) plus, for textures, the assigned image
slot (`Texture::image_index`), and `Index` to the wrapped `u32`. -/

/-- A texture storage slot: reference count and assigned image slot. -/
structure TextureEntry where
  imageIndex : Nat
  count : Nat
  deriving DecidableEq, Repr

/-- A shader/font storage slot: payload identity and reference count. -/
structure RefEntry where
  ident : Nat
  count : Nat
  deriving DecidableEq, Repr

/-- `ResourceManager`; the three hash maps are modelled as insertion-order
association lists, which is enough since the claims only compare their
contents before and after an operation. -/
structure ResourceManager (Mat Msh Fb : Type) where
  textures : List TextureEntry
  shaders : List RefEntry
  fonts : List RefEntry
  framebuffers : List (Nat × Fb)
  materials : List (Nat × Mat)
  meshes : List (Nat × Msh)
  nextIndex : Nat

/-- `ResourceManager::new`. -/
def ResourceManager.new (Mat Msh Fb : Type) : ResourceManager Mat Msh Fb where
  textures := []
  shaders := []
  fonts := []
  framebuffers := []
  materials := []
  meshes := []
  nextIndex := 0

/-- `ResourceManager::add_texture` (does not touch `next_index`). -/
def ResourceManager.addTexture {Mat Msh Fb : Type} (s : ResourceManager Mat Msh Fb)
    (t : TextureEntry) : ResourceManager Mat Msh Fb :=
  { s with textures := s.textures ++ [t] }

/-- `ResourceManager::add_shader` (does not touch `next_index`). -/
def ResourceManager.addShader {Mat Msh Fb : Type} (s : ResourceManager Mat Msh Fb)
    (r : RefEntry) : ResourceManager Mat Msh Fb :=
  { s with shaders := s.shaders ++ [r] }

/-- `ResourceManager::add_font` (does not touch `next_index`). -/
def ResourceManager.addFont {Mat Msh Fb : Type} (s : ResourceManager Mat Msh Fb)
    (r : RefEntry) : ResourceManager Mat Msh Fb :=
  { s with fonts := s.fonts ++ [r] }

/-- `ResourceManager::add_material`: draws `next_index`, increments it,
inserts the material under that index and returns the index. -/
def ResourceManager.addMaterial {Mat Msh Fb : Type} (s : ResourceManager Mat Msh Fb)
    (m : Mat) : ResourceManager Mat Msh Fb × Nat :=
  ({ s with materials := s.materials ++ [(s.nextIndex, m)],
            nextIndex := s.nextIndex + 1 }, s.nextIndex)

/-- `ResourceManager::add_mesh`: same shared counter as `add_material`. -/
def ResourceManager.addMesh {Mat Msh Fb : Type} (s : ResourceManager Mat Msh Fb)
    (m : Msh) : ResourceManager Mat Msh Fb × Nat :=
  ({ s with meshes := s.meshes ++ [(s.nextIndex, m)],
            nextIndex := s.nextIndex + 1 }, s.nextIndex)

/-- `ResourceManager::add_framebuffer`: same shared counter again. -/
def ResourceManager.addFramebuffer {Mat Msh Fb : Type} (s : ResourceManager Mat Msh Fb)
    (f : Fb) : ResourceManager Mat Msh Fb × Nat :=
  ({ s with framebuffers := s.framebuffers ++ [(s.nextIndex, f)],
            nextIndex := s.nextIndex + 1 }, s.nextIndex)

/-- The `for_each(|r| uniform.remove(..))` part of `clean_unused`: removes
the drained texture slots from the image uniform, in drain order. -/
def removeAllSlots {V : Type} (u : ImageUniform V) : List Nat → Option (ImageUniform V)
  | [] => some u
  | i :: rest => (u.remove i).bind fun u' => removeAllSlots u' rest

/-- `ResourceManager::clean_unused`: retains fonts/shaders/textures with a
non-zero reference count, frees each drained texture's image slot, and
leaves meshes, materials and framebuffers untouched (their `retain` calls
are commented out in the source). -/
def ResourceManager.cleanUnused {Mat Msh Fb : Type} {V : Type}
    (s : ResourceManager Mat Msh Fb) (u : ImageUniform V) :
    Option (ResourceManager Mat Msh Fb × ImageUniform V) :=
  let drained := s.textures.filter fun r => r.count == 0
  match removeAllSlots u (drained.map TextureEntry.imageIndex) with
  | some u' =>
      some ({ s with fonts := s.fonts.filter fun r => r.count != 0,
                     shaders := s.shaders.filter fun r => r.count != 0,
                     textures := s.textures.filter fun r => r.count != 0 }, u')
  | none => none

theorem remove_spec {V : Type} {u u' : ImageUniform V} {i : Nat}
    (h : u.remove i = some u') :
    u'.images.length = u.images.length ∧
    u'.samplerCombinations = u.samplerCombinations ∧
    u'.skybox = u.skybox ∧
    u'.images[i]? = some none ∧
    (∀ j : Nat, j ≠ i → u'.images[j]? = u.images[j]?) := by
  unfold ImageUniform.remove at h
  split at h
  · cases h
    refine ⟨List.length_set .., rfl, rfl, ?_, ?_⟩
    · exact List.getElem?_set_self (by assumption)
    · intro j hj
      exact List.getElem?_set_ne (fun hh => hj hh.symm)
  · exact Option.noConfusion h

theorem removeAllSlots_spec {V : Type} {idxs : List Nat} {u u' : ImageUniform V}
    (h : removeAllSlots u idxs = some u') :
    u'.images.length = u.images.length ∧
    u'.samplerCombinations = u.samplerCombinations ∧
    u'.skybox = u.skybox ∧
    (∀ i ∈ idxs, u'.images[i]? = some none) ∧
    (∀ j : Nat, j ∉ idxs → u'.images[j]? = u.images[j]?) := by
  induction idxs generalizing u with
  | nil =>
    simp only [removeAllSlots, Option.some_inj] at h
    subst h
    exact ⟨rfl, rfl, rfl, by simp, fun j _ => rfl⟩
  | cons i rest ih =>
    simp only [removeAllSlots, Option.bind_eq_bind, Option.bind_eq_some] at h
    obtain ⟨u₁, h₁, h₂⟩ := h
    obtain ⟨hlen₁, hsamp₁, hsky₁, hi₁, hoth₁⟩ := remove_spec h₁
    obtain ⟨hlen₂, hsamp₂, hsky₂, hmem₂, hoth₂⟩ := ih h₂
    refine ⟨hlen₂.trans hlen₁, hsamp₂.trans hsamp₁, hsky₂.trans hsky₁, ?_, ?_⟩
    · intro k hk
      rcases List.mem_cons.mp hk with hk | hk
      · subst hk
        by_cases hkr : k ∈ rest
        · exact hmem₂ k hkr
        · rw [hoth₂ k hkr]
          exact hi₁
      · exact hmem₂ k hk
    · intro j hj
      rw [hoth₂ j (fun hh => hj (List.mem_cons_of_mem i hh))]
      exact hoth₁ j (fun hh => hj (hh ▸ List.mem_cons_self i rest))

theorem removeAllSlots_isSome {V : Type} {idxs : List Nat} {u : ImageUniform V}
    (hin : ∀ i ∈ idxs, i < u.images.length) :
    ∃ u', removeAllSlots u idxs = some u' := by
  induction idxs generalizing u with
  | nil => exact ⟨u, rfl⟩
  | cons i rest ih =>
    have hi : i < u.images.length := hin i (List.mem_cons_self i rest)
    have hrem : u.remove i =
        some { u with images := u.images.set i none, shouldUpdate := true } := by
      unfold ImageUniform.remove
      rw [if_pos hi]
    obtain ⟨u', hu'⟩ := ih (u := { u with images := u.images.set i none,
                                          shouldUpdate := true })
      (fun k hk => by
        simpa [List.length_set] using hin k (List.mem_cons_of_mem i hk))
    exact ⟨u', by simp [removeAllSlots, hrem, hu']⟩

/-- C6: `clean_unused` removes exactly the zero-refcount texture, shader and
font entries (keeping relative order), frees each drained texture's image
slot — making it eligible for first-fit reuse by a later `add` — leaves
every other image slot untouched, and leaves materials, meshes,
framebuffers and the shared index counter completely unchanged. -/
theorem resourceManager_clean_unused {Mat Msh Fb V : Type}
    (s : ResourceManager Mat Msh Fb) (u : ImageUniform V) (v : V)
    (hin : ∀ t ∈ s.textures, t.count = 0 → t.imageIndex < u.images.length) :
    ∃ s' u', s.cleanUnused u = some (s', u') ∧
      (∀ t : TextureEntry, t ∈ s'.textures ↔ t ∈ s.textures ∧ t.count ≠ 0) ∧
      s'.textures.Sublist s.textures ∧
      (∀ r : RefEntry, r ∈ s'.shaders ↔ r ∈ s.shaders ∧ r.count ≠ 0) ∧
      s'.shaders.Sublist s.shaders ∧
      (∀ r : RefEntry, r ∈ s'.fonts ↔ r ∈ s.fonts ∧ r.count ≠ 0) ∧
      s'.fonts.Sublist s.fonts ∧
      (∀ t ∈ s.textures, t.count = 0 → u'.images[t.imageIndex]? = some none) ∧
      (∀ t ∈ s.textures, t.count = 0 → IsLowestFree u'.images t.imageIndex →
        (u'.add v).2 = t.imageIndex) ∧
      (∀ j : Nat, (∀ t ∈ s.textures, t.count = 0 → t.imageIndex ≠ j) →
        u'.images[j]? = u.images[j]?) ∧
      s'.materials = s.materials ∧ s'.meshes = s.meshes ∧
      s'.framebuffers = s.framebuffers ∧ s'.nextIndex = s.nextIndex := by
  have hmemdrain : ∀ i : Nat,
      i ∈ (s.textures.filter fun r => r.count == 0).map TextureEntry.imageIndex ↔
      ∃ t ∈ s.textures, t.count = 0 ∧ t.imageIndex = i := by
    intro i
    simp only [List.mem_map, List.mem_filter, beq_iff_eq]
    constructor
    · rintro ⟨t, ⟨htm, htc⟩, hti⟩
      exact ⟨t, htm, htc, hti⟩
    · rintro ⟨t, htm, htc, hti⟩
      exact ⟨t, ⟨htm, htc⟩, hti⟩
  have hbound : ∀ i ∈ (s.textures.filter fun r => r.count == 0).map
      TextureEntry.imageIndex, i < u.images.length := by
    intro i hi
    obtain ⟨t, htm, htc, hti⟩ := (hmemdrain i).mp hi
    exact hti ▸ hin t htm htc
  obtain ⟨u', hu'⟩ := removeAllSlots_isSome hbound
  obtain ⟨_, _, _, hfreed, huntouched⟩ := removeAllSlots_spec hu'
  refine ⟨{ s with fonts := (s.fonts.filter fun r => r.count != 0),
                   shaders := (s.shaders.filter fun r => r.count != 0),
                   textures := (s.textures.filter fun r => r.count != 0) }, u',
          ?_, ?_, List.filter_sublist _, ?_, List.filter_sublist _, ?_,
          List.filter_sublist _, ?_, ?_, ?_, rfl, rfl, rfl, rfl⟩
  · simp only [ResourceManager.cleanUnused, hu']
  · intro t
    simp [List.mem_filter]
  · intro r
    simp [List.mem_filter]
  · intro r
    simp [List.mem_filter]
  · intro t htm htc
    exact hfreed t.imageIndex ((hmemdrain t.imageIndex).mpr ⟨t, htm, htc, rfl⟩)
  · intro t htm htc hlow
    rw [add_snd_eq_firstFreeIndex, firstFreeIndex_eq_of_isLowestFree hlow]
  · intro j hj
    refine huntouched j (fun hh => ?_)
    obtain ⟨t, htm, htc, hti⟩ := (hmemdrain j).mp hh
    exact hj t htm htc hti

/-- C6 witness: a manager with one live texture (slot 0) and one dead
texture (slot 1, refcount 0) plus a dead shader; cleaning frees slot 1 but
keeps slot 0, and a following `add` reuses slot 1. -/
theorem resourceManager_clean_unused_witness :
    let s : ResourceManager Nat Nat Nat :=
      { textures := [⟨0, 1⟩, ⟨1, 0⟩], shaders := [⟨5, 0⟩], fonts := [],
        framebuffers := [(0, 0)], materials := [(1, 3)], meshes := [],
        nextIndex := 2 }
    let u : ImageUniform Nat :=
      { samplerCombinations := [], images := [some 10, some 11],
        skybox := none, shouldUpdate := false }
    ∃ s' u', s.cleanUnused u = some (s', u') ∧
      u'.images[1]? = some none ∧ u'.images[0]? = some (some 10) ∧
      (u'.add 99).2 = 1 ∧ s'.materials = [(1, 3)] := by
  intro s u
  obtain ⟨s', u', hclean, _, _, _, _, _, _, hfreed, hreuse, huntouched, hmat, _, _, _⟩ :=
    resourceManager_clean_unused s u 99 (by decide)
  refine ⟨s', u', hclean, ?_, ?_, ?_, by rw [hmat]⟩
  · exact hfreed ⟨1, 0⟩ (by decide) rfl
  · rw [huntouched 0 (by decide)]
    rfl
  · refine hreuse ⟨1, 0⟩ (by decide) rfl ⟨?_, ?_⟩
    · exact hfreed ⟨1, 0⟩ (by decide) rfl
    · intro j hj
      interval_cases j
      rw [huntouched 0 (by decide)]
      decide

/-! ### C10: the shared `next_index` counter -/

/-- The manager operations, as they affect the index counter: the three
index-drawing insertions, the three storage-slot insertions (which do not
touch `next_index`), and the manager-side effect of `clean_unused` (which
touches only the storage slot lists). -/
inductive RmOp (Mat Msh Fb : Type) where
  | addMaterial (m : Mat)
  | addMesh (m : Msh)
  | addFramebuffer (f : Fb)
  | addTexture (t : TextureEntry)
  | addShader (r : RefEntry)
  | addFont (r : RefEntry)
  | clean

/-- One manager operation; returns the issued index for the three
index-drawing insertions.  `clean` applies the manager-side field updates
of `clean_unused` (the image-uniform side is irrelevant to the counter). -/
def applyRmOp {Mat Msh Fb : Type} (s : ResourceManager Mat Msh Fb) :
    RmOp Mat Msh Fb → ResourceManager Mat Msh Fb × Option Nat
  | .addMaterial m => ((s.addMaterial m).1, some (s.addMaterial m).2)
  | .addMesh m => ((s.addMesh m).1, some (s.addMesh m).2)
  | .addFramebuffer f => ((s.addFramebuffer f).1, some (s.addFramebuffer f).2)
  | .addTexture t => (s.addTexture t, none)
  | .addShader r => (s.addShader r, none)
  | .addFont r => (s.addFont r, none)
  | .clean => ({ s with fonts := (s.fonts.filter fun r => r.count != 0),
                        shaders := (s.shaders.filter fun r => r.count != 0),
                        textures := (s.textures.filter fun r => r.count != 0) }, none)

/-- Runs a sequence of manager operations, collecting every index issued by
`add_material`/`add_mesh`/`add_framebuffer` in order. -/
def runRmOps {Mat Msh Fb : Type} (s : ResourceManager Mat Msh Fb) :
    List (RmOp Mat Msh Fb) → ResourceManager Mat Msh Fb × List Nat
  | [] => (s, [])
  | op :: rest =>
      let step := applyRmOp s op
      let tail := runRmOps step.1 rest
      (tail.1, step.2.toList ++ tail.2)

/-- The number of index-drawing insertions in an operation sequence. -/
def indexInsertCount {Mat Msh Fb : Type} : List (RmOp Mat Msh Fb) → Nat
  | [] => 0
  | .addMaterial _ :: rest => indexInsertCount rest + 1
  | .addMesh _ :: rest => indexInsertCount rest + 1
  | .addFramebuffer _ :: rest => indexInsertCount rest + 1
  | _ :: rest => indexInsertCount rest

/-- C10: `add_material`, `add_mesh` and `add_framebuffer` draw from one
shared counter that increases by exactly one per insertion: over any
operation sequence the issued indices are the consecutive range starting at
the initial counter — so they are pairwise distinct across the three
resource kinds and an index, once issued, is never issued again (no other
operation, including `clean_unused`, moves the counter back). -/
theorem resourceManager_indices_distinct {Mat Msh Fb : Type}
    (s : ResourceManager Mat Msh Fb) (ops : List (RmOp Mat Msh Fb)) :
    (runRmOps s ops).2 = List.range' s.nextIndex (indexInsertCount ops) ∧
    (runRmOps s ops).1.nextIndex = s.nextIndex + indexInsertCount ops ∧
    (runRmOps s ops).2.Nodup := by
  have main : ∀ (ops : List (RmOp Mat Msh Fb)) (s : ResourceManager Mat Msh Fb),
      (runRmOps s ops).2 = List.range' s.nextIndex (indexInsertCount ops) ∧
      (runRmOps s ops).1.nextIndex = s.nextIndex + indexInsertCount ops := by
    intro ops
    induction ops with
    | nil => intro s; exact ⟨rfl, rfl⟩
    | cons op rest ih =>
      intro s
      cases op with
      | addMaterial m =>
        obtain ⟨h1, h2⟩ := ih (s.addMaterial m).1
        refine ⟨?_, ?_⟩
        · simp only [runRmOps, applyRmOp, indexInsertCount, h1, List.range'_succ]
          rfl
        · simp only [runRmOps, applyRmOp, indexInsertCount, h2]
          simp only [ResourceManager.addMaterial]
          omega
      | addMesh m =>
        obtain ⟨h1, h2⟩ := ih (s.addMesh m).1
        refine ⟨?_, ?_⟩
        · simp only [runRmOps, applyRmOp, indexInsertCount, h1, List.range'_succ]
          rfl
        · simp only [runRmOps, applyRmOp, indexInsertCount, h2]
          simp only [ResourceManager.addMesh]
          omega
      | addFramebuffer f =>
        obtain ⟨h1, h2⟩ := ih (s.addFramebuffer f).1
        refine ⟨?_, ?_⟩
        · simp only [runRmOps, applyRmOp, indexInsertCount, h1, List.range'_succ]
          rfl
        · simp only [runRmOps, applyRmOp, indexInsertCount, h2]
          simp only [ResourceManager.addFramebuffer]
          omega
      | addTexture t =>
        obtain ⟨h1, h2⟩ := ih (s.addTexture t)
        exact ⟨by simpa [runRmOps, applyRmOp, indexInsertCount] using h1,
               by simpa [runRmOps, applyRmOp, indexInsertCount] using h2⟩
      | addShader r =>
        obtain ⟨h1, h2⟩ := ih (s.addShader r)
        exact ⟨by simpa [runRmOps, applyRmOp, indexInsertCount] using h1,
               by simpa [runRmOps, applyRmOp, indexInsertCount] using h2⟩
      | addFont r =>
        obtain ⟨h1, h2⟩ := ih (s.addFont r)
        exact ⟨by simpa [runRmOps, applyRmOp, indexInsertCount] using h1,
               by simpa [runRmOps, applyRmOp, indexInsertCount] using h2⟩
      | clean =>
        obtain ⟨h1, h2⟩ := ih (applyRmOp s .clean).1
        exact ⟨by simpa [runRmOps, indexInsertCount] using h1,
               by simpa [runRmOps, indexInsertCount] using h2⟩
  obtain ⟨h1, h2⟩ := main ops s
  exact ⟨h1, h2, h1 ▸ List.nodup_range' s.nextIndex (indexInsertCount ops)⟩

/-! ## Buffer (src/src/buffer/mod.rs)

`Buffer<T>` tracks its byte capacity in `size`; `resize` reallocates to
`size_of::<T>() * len` bytes, `copy_from_data` debug-asserts
`size >= size_of::<T>() * data.len()` before copying.  The GPU handle and
memory are device-side collaborators and carry no logic the claims touch;
`elemSize` stands for `mem::size_of::<T>()` and a slice for its length. -/

/-- `BufferUsage` (buffer/properties.rs): the variant that matters to the
embedded logic is `TransferSrc` (staging buffers cannot be resized). -/
inductive BufferUsage where
  | vertex
  | index
  | uniform
  | transferSrc
  deriving DecidableEq, Repr

/-- `Buffer<T>`, reduced to the fields the embedded methods read. -/
structure Buffer where
  elemSize : Nat
  size : Nat
  usage : BufferUsage
  deriving DecidableEq, Repr

/-- `Buffer::dynamic`: allocates `size_of::<T>() * len` bytes. -/
def Buffer.dynamic (elemSize : Nat) (usage : BufferUsage) (len : Nat) : Buffer :=
  { elemSize, usage, size := elemSize * len }

/-- `Buffer::len`: the logical length `size / size_of::<T>()`. -/
def Buffer.len (b : Buffer) : Nat :=
  b.size / b.elemSize

/-- `Buffer::resize`: debug-fatal on staging buffers, otherwise reallocates
to `size_of::<T>() * len` bytes. -/
def Buffer.resize (b : Buffer) (len : Nat) : Option Buffer :=
  if b.usage = BufferUsage.transferSrc then
    none
  else
    some { b with size := b.elemSize * len }

/-- `Buffer::copy_from_data` on a slice of `dataLen` elements: debug-fatal
(`dynamic buffer needs to be resized`) unless
`size_of::<T>() * data.len() <= size`; the copy itself leaves the tracked
state unchanged. -/
def Buffer.copyFromData (b : Buffer) (dataLen : Nat) : Option Buffer :=
  if b.elemSize * dataLen ≤ b.size then some b else none

/-- C8: after `resize(n)` with `n` at least the previous logical length, a
write of exactly `n` elements meets the capacity precondition
`data.len() * sizeof(T) <= size` and succeeds without the debug-fatal
branch; conversely any write whose byte size exceeds the current capacity
is the debug-fatal failure. -/
theorem buffer_resize_then_write (b : Buffer) (n : Nat)
    (husage : b.usage ≠ BufferUsage.transferSrc) (_hprev : b.len ≤ n) :
    (∃ b', b.resize n = some b' ∧ b'.elemSize * n ≤ b'.size ∧
      b'.copyFromData n = some b') ∧
    (∀ m : Nat, b.size < b.elemSize * m → b.copyFromData m = none) := by
  constructor
  · refine ⟨{ b with size := b.elemSize * n }, ?_, le_refl _, ?_⟩
    · unfold Buffer.resize
      rw [if_neg husage]
    · unfold Buffer.copyFromData
      rw [if_pos (le_refl _)]
  · intro m hm
    unfold Buffer.copyFromData
    rw [if_neg (by omega)]

/-- C8 witness: a uniform buffer holding 2 records of 4 bytes; resizing to
5 records then writing 5 records succeeds, while writing 3 records without
the resize hits the debug-fatal branch. -/
theorem buffer_resize_then_write_witness :
    let b : Buffer := { elemSize := 4, size := 8, usage := BufferUsage.uniform }
    (∃ b', b.resize 5 = some b' ∧ b'.elemSize * 5 ≤ b'.size ∧
      b'.copyFromData 5 = some b') ∧ b.copyFromData 3 = none := by
  intro b
  have h := buffer_resize_then_write b 5 (by decide) (by decide)
  exact ⟨h.1, h.2 3 (by decide)⟩

/-! ## Target (src/tegne/src/renderer/target.rs)

The draw-order collector.  `IdRef` resource handles become `Nat`; the model
matrix type `M` and the light type `L` are parameters (the collector never
inspects them); the `f32` clear color and bias become rationals.  The
`resources` reference is only used by `draw_text` (font layout, out of the
claims' scope) and is omitted. -/

/-- The builtin resource ids a `Target` is seeded with. -/
structure Builtins where
  phongShader : Nat
  wireframeShader : Nat
  fontShader : Nat
  blitShader : Nat
  whiteMaterial : Nat
  whiteTexture : Nat
  cubeMesh : Nat
  sphereMesh : Nat
  surfaceMesh : Nat
  robotoFont : Nat
  deriving DecidableEq, Repr

/-- `Order`: one collected draw call. -/
structure Order (M : Type) where
  mesh : Nat
  albedo : Nat
  framebuffer : Option Nat
  model : M
  hasShadows : Bool
  samplerIndex : Nat
  deriving DecidableEq, Repr

/-- `OrdersByMaterial`: one material sub-bucket. -/
structure OrdersByMaterial (M : Type) where
  material : Nat
  orders : List (Order M)
  deriving DecidableEq, Repr

/-- `OrdersByShader`: one shader bucket. -/
structure OrdersByShader (M : Type) where
  shader : Nat
  ordersByMaterial : List (OrdersByMaterial M)
  deriving DecidableEq, Repr

/-- `Target`: the per-frame draw-call collector. -/
structure Target (M L : Type) where
  ordersByShader : List (OrdersByShader M)
  clear : ℚ × ℚ × ℚ × ℚ
  lights : List L
  currentShader : Nat
  currentMaterial : Nat
  currentAlbedo : Nat
  currentFramebuffer : Option Nat
  currentFont : Nat
  hasShadows : Bool
  wireframes : Bool
  samplerNearest : Bool
  samplerClamp : Bool
  samplerNoMipmaps : Bool
  bias : ℚ
  builtins : Builtins

/-- `Target::new`: seeds the current state from the builtins. -/
def Target.new {M L : Type} (builtins : Builtins) : Target M L where
  ordersByShader := []
  clear := (7/10, 7/10, 7/10, 1)
  lights := []
  currentShader := builtins.phongShader
  currentMaterial := builtins.whiteMaterial
  currentAlbedo := builtins.whiteTexture
  currentFramebuffer := none
  currentFont := builtins.robotoFont
  hasShadows := false
  wireframes := false
  samplerNearest := false
  samplerClamp := false
  samplerNoMipmaps := false
  bias := 1/250
  builtins := builtins

/-- `Target::sampler_combination`: 4·nearest + 2·clamp + 1·no-mipmaps. -/
def Target.samplerCombination {M L : Type} (t : Target M L) : Nat :=
  (if t.samplerNearest then 4 else 0) +
    (if t.samplerClamp then 2 else 0) +
    (if t.samplerNoMipmaps then 1 else 0)

/-- The `find`-and-push over material sub-buckets in `add_order`: appends
to the first sub-bucket with this material, or appends a new sub-bucket. -/
def pushOrderMat {M : Type} (material : Nat) (order : Order M) :
    List (OrdersByMaterial M) → List (OrdersByMaterial M)
  | [] => [⟨material, [order]⟩]
  | mo :: rest =>
      if mo.material = material then
        ⟨mo.material, mo.orders ++ [order]⟩ :: rest
      else
        mo :: pushOrderMat material order rest

/-- The `find`-and-push over shader buckets in `add_order`. -/
def pushOrderShader {M : Type} (shader material : Nat) (order : Order M) :
    List (OrdersByShader M) → List (OrdersByShader M)
  | [] => [⟨shader, [⟨material, [order]⟩]⟩]
  | so :: rest =>
      if so.shader = shader then
        ⟨so.shader, pushOrderMat material order so.ordersByMaterial⟩ :: rest
      else
        so :: pushOrderShader shader material order rest

/-- `so.orders_by_material[0].orders.push(order)` in the wireframe branch:
appends to the FIRST material sub-bucket.  On an empty sub-bucket list the
source would panic on the `[0]` indexing; every reachable bucket is
non-empty, and the claims carry that as a hypothesis. -/
def pushFirstMat {M : Type} (order : Order M) :
    List (OrdersByMaterial M) → List (OrdersByMaterial M)
  | [] => []
  | mo :: rest => ⟨mo.material, mo.orders ++ [order]⟩ :: rest

/-- The wireframe branch of `add_order`: appends the duplicate order to the
wireframe bucket's first sub-bucket, creating the bucket (with the builtin
white material) when it does not yet exist. -/
def pushWireframe {M : Type} (wireframeShader whiteMaterial : Nat) (order : Order M) :
    List (OrdersByShader M) → List (OrdersByShader M)
  | [] => [⟨wireframeShader, [⟨whiteMaterial, [order]⟩]⟩]
  | so :: rest =>
      if so.shader = wireframeShader then
        ⟨so.shader, pushFirstMat order so.ordersByMaterial⟩ :: rest
      else
        so :: pushWireframe wireframeShader whiteMaterial order rest

/-- `Target::add_order`: sticky `has_shadows`, insertion under the current
shader/material bucket, and the wireframe duplicate when enabled. -/
def Target.addOrder {M L : Type} (t : Target M L) (order : Order M) : Target M L :=
  let material := t.currentMaterial
  let shader := t.currentShader
  let t₁ := if order.hasShadows then { t with hasShadows := true } else t
  let t₂ := { t₁ with ordersByShader :=
                pushOrderShader shader material order t₁.ordersByShader }
  if t₂.wireframes then
    { t₂ with ordersByShader := (pushWireframe t₂.builtins.wireframeShader
        t₂.builtins.whiteMaterial order t₂.ordersByShader) }
  else
    t₂

/-- `Target::draw`. -/
def Target.draw {M L : Type} (t : Target M L) (mesh : Nat) (model : M) : Target M L :=
  t.addOrder
    { mesh, albedo := t.currentAlbedo, framebuffer := t.currentFramebuffer,
      model, hasShadows := true, samplerIndex := t.samplerCombination }

/-- `Target::draw_cube`. -/
def Target.drawCube {M L : Type} (t : Target M L) (model : M) : Target M L :=
  t.addOrder
    { mesh := t.builtins.cubeMesh, albedo := t.currentAlbedo,
      framebuffer := t.currentFramebuffer, model, hasShadows := true,
      samplerIndex := t.samplerCombination }

/-- `Target::draw_sphere`. -/
def Target.drawSphere {M L : Type} (t : Target M L) (model : M) : Target M L :=
  t.addOrder
    { mesh := t.builtins.sphereMesh, albedo := t.currentAlbedo,
      framebuffer := t.currentFramebuffer, model, hasShadows := true,
      samplerIndex := t.samplerCombination }

/-- `Target::set_material`. -/
def Target.setMaterial {M L : Type} (t : Target M L) (material : Nat) : Target M L :=
  { t with currentMaterial := material }

/-- `Target::set_shader`. -/
def Target.setShader {M L : Type} (t : Target M L) (shader : Nat) : Target M L :=
  { t with currentShader := shader }

/-- `Target::set_albedo_texture`. -/
def Target.setAlbedoTexture {M L : Type} (t : Target M L) (texture : Nat) : Target M L :=
  { t with currentAlbedo := texture }

/-- `Target::set_framebuffer`. -/
def Target.setFramebuffer {M L : Type} (t : Target M L) (framebuffer : Nat) : Target M L :=
  { t with currentFramebuffer := some framebuffer }

/-- `Target::enable_wireframes`. -/
def Target.enableWireframes {M L : Type} (t : Target M L) : Target M L :=
  { t with wireframes := true }

/-- `Target::add_directional_light` (direction/color are packed into `L`). -/
def Target.addDirectionalLight {M L : Type} (t : Target M L) (light : L) : Target M L :=
  { t with lights := t.lights ++ [light] }

/-- `Target::lights`: `lights[..self.lights.len()].clone_from_slice(..)` on
a `[Light; 3]`.  The result is the 3-element default-padded array; `none`
models the panic of the `[..len]` slicing when more than 3 lights were
added (range end out of bounds for a slice of length 3). -/
def Target.lightsArray {M L : Type} [Inhabited L] (t : Target M L) : Option (List L) :=
  if t.lights.length ≤ 3 then
    some (t.lights ++ List.replicate (3 - t.lights.length) default)
  else
    none

/-- C7 (code bug): `Target::lights` does NOT truncate — with more than 3
added lights the `lights[..self.lights.len()]` slicing panics instead of
silently dropping the excess.  At the failing input (four
`add_directional_light` calls) the model yields the panic value `none`,
while for up to three lights it returns the default-padded 3-slot array
the claim describes. -/
theorem target_lights_cap_panics :
    let b : Builtins := ⟨0, 1, 2, 3, 4, 5, 6, 7, 8, 9⟩
    let t0 : Target Unit Nat := Target.new b
    ((((t0.addDirectionalLight 21).addDirectionalLight 22).addDirectionalLight
        23).addDirectionalLight 24).lightsArray = none ∧
    (((t0.addDirectionalLight 21).addDirectionalLight 22).addDirectionalLight
        23).lightsArray = some [21, 22, 23] ∧
    ((t0.addDirectionalLight 21).addDirectionalLight 22).lightsArray =
      some [21, 22, 0] := by
  exact ⟨rfl, rfl, rfl⟩

/-! ### C1: order grouping -/

/-- The interleaved calls the grouping claim quantifies over: `draw*` calls
with `set_shader`/`set_material` (and `set_albedo_texture`) state changes. -/
inductive TargetEv (M : Type) where
  | setShader (shader : Nat)
  | setMaterial (material : Nat)
  | setAlbedoTexture (texture : Nat)
  | draw (mesh : Nat) (model : M)
  | drawCube (model : M)
  | drawSphere (model : M)

/-- Dispatches one call to the corresponding `Target` method. -/
def targetStep {M L : Type} (t : Target M L) : TargetEv M → Target M L
  | .setShader sh => t.setShader sh
  | .setMaterial m => t.setMaterial m
  | .setAlbedoTexture a => t.setAlbedoTexture a
  | .draw mesh model => t.draw mesh model
  | .drawCube model => t.drawCube model
  | .drawSphere model => t.drawSphere model

/-- Runs a call sequence. -/
def targetRun {M L : Type} (t : Target M L) : List (TargetEv M) → Target M L
  | [] => t
  | e :: es => targetRun (targetStep t e) es

/-- The order a draw call builds at state `t` (none for state setters);
mirrors the `Order { .. }` literals in `draw`/`draw_cube`/`draw_sphere`. -/
def drawnOrder {M L : Type} (t : Target M L) : TargetEv M → Option (Order M)
  | .setShader _ => none
  | .setMaterial _ => none
  | .setAlbedoTexture _ => none
  | .draw mesh model =>
      some { mesh, albedo := t.currentAlbedo, framebuffer := t.currentFramebuffer,
             model, hasShadows := true, samplerIndex := t.samplerCombination }
  | .drawCube model =>
      some { mesh := t.builtins.cubeMesh, albedo := t.currentAlbedo,
             framebuffer := t.currentFramebuffer, model, hasShadows := true,
             samplerIndex := t.samplerCombination }
  | .drawSphere model =>
      some { mesh := t.builtins.sphereMesh, albedo := t.currentAlbedo,
             framebuffer := t.currentFramebuffer, model, hasShadows := true,
             samplerIndex := t.samplerCombination }

/-- The trace of a run: for every draw call, the current shader, current
material and the order built, at the time of that call. -/
def targetTrace {M L : Type} (t : Target M L) :
    List (TargetEv M) → List (Nat × Nat × Order M)
  | [] => []
  | e :: es =>
      (match drawnOrder t e with
       | some o => [(t.currentShader, t.currentMaterial, o)]
       | none => []) ++ targetTrace (targetStep t e) es

/-- The shader keys of the bucket list, in traversal order. -/
def shaderKeys {M : Type} (bs : List (OrdersByShader M)) : List Nat :=
  bs.map OrdersByShader.shader

/-- `find`-lookup of a shader bucket. -/
def bucketFor {M : Type} (sh : Nat) (bs : List (OrdersByShader M)) :
    Option (OrdersByShader M) :=
  bs.find? fun so => so.shader == sh

/-- The material sub-buckets under a shader, `[]` when the bucket is absent. -/
def matsFor {M : Type} (sh : Nat) (bs : List (OrdersByShader M)) :
    List (OrdersByMaterial M) :=
  match bucketFor sh bs with
  | some so => so.ordersByMaterial
  | none => []

/-- `find`-lookup of a material sub-bucket. -/
def matBucketFor {M : Type} (mat : Nat) (ms : List (OrdersByMaterial M)) :
    Option (OrdersByMaterial M) :=
  ms.find? fun mo => mo.material == mat

/-- The material keys under a shader, in traversal order. -/
def materialKeysFor {M : Type} (sh : Nat) (bs : List (OrdersByShader M)) : List Nat :=
  (matsFor sh bs).map OrdersByMaterial.material

/-- The orders collected under a given shader/material pair, in order. -/
def ordersFor {M : Type} (sh mat : Nat) (bs : List (OrdersByShader M)) :
    List (Order M) :=
  match matBucketFor mat (matsFor sh bs) with
  | some mo => mo.orders
  | none => []

/-- Appends a key unless already present: one step of first-occurrence
deduplication. -/
def insertNew (acc : List Nat) (a : Nat) : List Nat :=
  if a ∈ acc then acc else acc ++ [a]

/-- The distinct keys of a list in first-occurrence order. -/
def firstOccur (l : List Nat) : List Nat :=
  l.foldl insertNew []

theorem mem_insertNew {acc : List Nat} {a x : Nat} :
    x ∈ insertNew acc a ↔ x ∈ acc ∨ x = a := by
  unfold insertNew
  split
  · rename_i hmem
    constructor
    · exact Or.inl
    · rintro (h | rfl)
      · exact h
      · exact hmem
  · simp

theorem firstOccur_append (l : List Nat) (a : Nat) :
    firstOccur (l ++ [a]) = insertNew (firstOccur l) a := by
  unfold firstOccur
  rw [List.foldl_append]
  rfl

theorem shaderKeys_push {M : Type} (sh mat : Nat) (o : Order M)
    (bs : List (OrdersByShader M)) :
    shaderKeys (pushOrderShader sh mat o bs) = insertNew (shaderKeys bs) sh := by
  induction bs with
  | nil => rfl
  | cons so rest ih =>
    by_cases h : so.shader = sh
    · simp only [pushOrderShader, if_pos h, shaderKeys, List.map_cons, insertNew]
      rw [if_pos (by simp [shaderKeys, h])]
    · simp only [pushOrderShader, if_neg h, shaderKeys, List.map_cons] at ih ⊢
      rw [ih]
      simp only [insertNew, List.mem_cons]
      by_cases hmem : sh ∈ List.map OrdersByShader.shader rest
      · rw [if_pos hmem, if_pos (Or.inr hmem)]
      · rw [if_neg hmem, if_neg (by rintro (h' | h') <;> simp_all)]
        simp

theorem matsFor_push_self {M : Type} (sh mat : Nat) (o : Order M)
    (bs : List (OrdersByShader M)) :
    matsFor sh (pushOrderShader sh mat o bs) = pushOrderMat mat o (matsFor sh bs) := by
  induction bs with
  | nil => simp [matsFor, bucketFor, pushOrderShader, List.find?, pushOrderMat]
  | cons so rest ih =>
    by_cases h : so.shader = sh
    · simp [matsFor, bucketFor, pushOrderShader, if_pos h, List.find?, h]
    · simp only [pushOrderShader, if_neg h]
      simp only [matsFor, bucketFor, List.find?] at ih ⊢
      rw [show (so.shader == sh) = false by simp [h]]
      simp only at ih ⊢
      exact ih

theorem matsFor_push_ne {M : Type} {sh' sh : Nat} (mat : Nat) (o : Order M)
    (bs : List (OrdersByShader M)) (h : sh' ≠ sh) :
    matsFor sh' (pushOrderShader sh mat o bs) = matsFor sh' bs := by
  induction bs with
  | nil =>
    simp [matsFor, bucketFor, pushOrderShader, List.find?,
      show (sh == sh') = false by simp [Ne.symm h]]
  | cons so rest ih =>
    by_cases hso : so.shader = sh
    · simp [matsFor, bucketFor, pushOrderShader, if_pos hso, List.find?,
        show (so.shader == sh') = false by simp [hso, Ne.symm h]]
    · simp only [pushOrderShader, if_neg hso]
      simp only [matsFor, bucketFor, List.find?] at ih ⊢
      cases hcmp : (so.shader == sh')
      all_goals simp only [hcmp] at ih ⊢
      all_goals (first | rfl | exact ih)

theorem matKeys_pushOrderMat {M : Type} (mat : Nat) (o : Order M)
    (ms : List (OrdersByMaterial M)) :
    (pushOrderMat mat o ms).map OrdersByMaterial.material =
      insertNew (ms.map OrdersByMaterial.material) mat := by
  induction ms with
  | nil => rfl
  | cons mo rest ih =>
    by_cases h : mo.material = mat
    · simp only [pushOrderMat, if_pos h, List.map_cons, insertNew]
      rw [if_pos (by simp [h])]
    · simp only [pushOrderMat, if_neg h, List.map_cons] at ih ⊢
      rw [ih]
      simp only [insertNew, List.mem_cons]
      by_cases hmem : mat ∈ List.map OrdersByMaterial.material rest
      · rw [if_pos hmem, if_pos (Or.inr hmem)]
      · rw [if_neg hmem, if_neg (by rintro (h' | h') <;> simp_all)]
        simp

/-- The orders stored in an optional material sub-bucket. -/
def subOrders {M : Type} : Option (OrdersByMaterial M) → List (Order M)
  | some mo => mo.orders
  | none => []

theorem subOrders_pushOrderMat_self {M : Type} (mat : Nat) (o : Order M)
    (ms : List (OrdersByMaterial M)) :
    subOrders (matBucketFor mat (pushOrderMat mat o ms)) =
      subOrders (matBucketFor mat ms) ++ [o] := by
  induction ms with
  | nil => simp [matBucketFor, pushOrderMat, List.find?, subOrders]
  | cons mo rest ih =>
    by_cases h : mo.material = mat
    · simp [matBucketFor, pushOrderMat, if_pos h, List.find?, h, subOrders]
    · simp only [pushOrderMat, if_neg h]
      simp only [matBucketFor, List.find?] at ih ⊢
      rw [show (mo.material == mat) = false by simp [h]]
      simp only at ih ⊢
      exact ih

theorem matBucketFor_pushOrderMat_ne {M : Type} {mat' mat : Nat} (o : Order M)
    (ms : List (OrdersByMaterial M)) (h : mat' ≠ mat) :
    matBucketFor mat' (pushOrderMat mat o ms) = matBucketFor mat' ms := by
  induction ms with
  | nil =>
    simp [matBucketFor, pushOrderMat, List.find?,
      show (mat == mat') = false by simp [Ne.symm h]]
  | cons mo rest ih =>
    by_cases hmo : mo.material = mat
    · simp [matBucketFor, pushOrderMat, if_pos hmo, List.find?,
        show (mo.material == mat') = false by simp [hmo, Ne.symm h]]
    · simp only [pushOrderMat, if_neg hmo]
      simp only [matBucketFor, List.find?] at ih ⊢
      cases hcmp : (mo.material == mat')
      all_goals simp only [hcmp] at ih ⊢
      all_goals (first | rfl | exact ih)

theorem ordersFor_eq_subOrders {M : Type} (sh mat : Nat)
    (bs : List (OrdersByShader M)) :
    ordersFor sh mat bs = subOrders (matBucketFor mat (matsFor sh bs)) := by
  unfold ordersFor subOrders
  cases matBucketFor mat (matsFor sh bs) <;> rfl

/-- The grouping property relating a bucket structure to the trace of draw
calls that produced it: shader buckets appear in first-occurrence order of
the shader current at each call; material sub-buckets appear in
first-occurrence order within their shader; and each shader/material pair
holds exactly its orders in insertion order. -/
def GroupingInv {M : Type} (bs : List (OrdersByShader M))
    (tr : List (Nat × Nat × Order M)) : Prop :=
  shaderKeys bs = firstOccur (tr.map fun x => x.1) ∧
  (∀ sh : Nat, materialKeysFor sh bs =
    firstOccur ((tr.filter fun x => x.1 == sh).map fun x => x.2.1)) ∧
  (∀ sh mat : Nat, ordersFor sh mat bs =
    (tr.filter fun x => x.1 == sh && x.2.1 == mat).map fun x => x.2.2)

theorem groupingInv_insert {M : Type} {bs : List (OrdersByShader M)}
    {tr : List (Nat × Nat × Order M)} (h : GroupingInv bs tr)
    (sh mat : Nat) (o : Order M) :
    GroupingInv (pushOrderShader sh mat o bs) (tr ++ [(sh, mat, o)]) := by
  obtain ⟨h1, h2, h3⟩ := h
  refine ⟨?_, ?_, ?_⟩
  · rw [shaderKeys_push, h1, List.map_append]
    simp only [List.map_cons, List.map_nil]
    rw [firstOccur_append]
  · intro sh'
    by_cases hsh : sh' = sh
    · subst hsh
      unfold materialKeysFor
      rw [matsFor_push_self, matKeys_pushOrderMat]
      have h2' := h2 sh'
      unfold materialKeysFor at h2'
      rw [h2', List.filter_append, List.map_append]
      simp only [List.filter_cons, List.filter_nil, beq_self_eq_true, if_true,
        List.map_cons, List.map_nil]
      rw [firstOccur_append]
    · unfold materialKeysFor
      rw [matsFor_push_ne mat o bs hsh]
      have h2' := h2 sh'
      unfold materialKeysFor at h2'
      rw [h2', List.filter_append]
      simp [show (sh == sh') = false by simp [Ne.symm hsh]]
  · intro sh' mat'
    by_cases hsh : sh' = sh
    · subst hsh
      by_cases hmat : mat' = mat
      · subst hmat
        rw [ordersFor_eq_subOrders, matsFor_push_self,
          subOrders_pushOrderMat_self, ← ordersFor_eq_subOrders, h3 sh' mat',
          List.filter_append, List.map_append]
        simp
      · rw [ordersFor_eq_subOrders, matsFor_push_self,
          matBucketFor_pushOrderMat_ne o _ hmat, ← ordersFor_eq_subOrders,
          h3 sh' mat', List.filter_append]
        simp [show (mat == mat') = false by simp [Ne.symm hmat]]
    · rw [ordersFor_eq_subOrders, matsFor_push_ne mat o bs hsh,
        ← ordersFor_eq_subOrders, h3 sh' mat', List.filter_append]
      simp [show (sh == sh') = false by simp [Ne.symm hsh]]

theorem addOrder_no_wireframe {M L : Type} (t : Target M L) (o : Order M)
    (hw : t.wireframes = false) :
    (t.addOrder o).ordersByShader =
      pushOrderShader t.currentShader t.currentMaterial o t.ordersByShader ∧
    (t.addOrder o).wireframes = false := by
  unfold Target.addOrder
  cases ho : o.hasShadows <;> simp [ho, hw]

theorem targetRun_grouping {M L : Type} :
    ∀ (evs : List (TargetEv M)) (t : Target M L)
      (tr : List (Nat × Nat × Order M)),
    t.wireframes = false → GroupingInv t.ordersByShader tr →
    (targetRun t evs).wireframes = false ∧
    GroupingInv (targetRun t evs).ordersByShader (tr ++ targetTrace t evs) := by
  intro evs
  induction evs with
  | nil =>
    intro t tr hw hinv
    simpa [targetRun, targetTrace] using ⟨hw, hinv⟩
  | cons e es ih =>
    intro t tr hw hinv
    cases e with
    | setShader sh =>
      have := ih (t.setShader sh) tr hw hinv
      simpa [targetRun, targetStep, targetTrace, drawnOrder] using this
    | setMaterial m =>
      have := ih (t.setMaterial m) tr hw hinv
      simpa [targetRun, targetStep, targetTrace, drawnOrder] using this
    | setAlbedoTexture a =>
      have := ih (t.setAlbedoTexture a) tr hw hinv
      simpa [targetRun, targetStep, targetTrace, drawnOrder] using this
    | draw mesh model =>
      obtain ⟨hord, hw'⟩ := addOrder_no_wireframe t
        { mesh, albedo := t.currentAlbedo, framebuffer := t.currentFramebuffer,
          model, hasShadows := true, samplerIndex := t.samplerCombination } hw
      have hinv' := groupingInv_insert hinv t.currentShader t.currentMaterial
        { mesh, albedo := t.currentAlbedo, framebuffer := t.currentFramebuffer,
          model, hasShadows := true, samplerIndex := t.samplerCombination }
      rw [← hord] at hinv'
      have := ih (t.draw mesh model) (tr ++ [(t.currentShader, t.currentMaterial, _)])
        hw' hinv'
      simpa [targetRun, targetStep, targetTrace, drawnOrder, Target.draw] using this
    | drawCube model =>
      obtain ⟨hord, hw'⟩ := addOrder_no_wireframe t
        { mesh := t.builtins.cubeMesh, albedo := t.currentAlbedo,
          framebuffer := t.currentFramebuffer, model, hasShadows := true,
          samplerIndex := t.samplerCombination } hw
      have hinv' := groupingInv_insert hinv t.currentShader t.currentMaterial
        { mesh := t.builtins.cubeMesh, albedo := t.currentAlbedo,
          framebuffer := t.currentFramebuffer, model, hasShadows := true,
          samplerIndex := t.samplerCombination }
      rw [← hord] at hinv'
      have := ih (t.drawCube model) (tr ++ [(t.currentShader, t.currentMaterial, _)])
        hw' hinv'
      simpa [targetRun, targetStep, targetTrace, drawnOrder, Target.drawCube] using this
    | drawSphere model =>
      obtain ⟨hord, hw'⟩ := addOrder_no_wireframe t
        { mesh := t.builtins.sphereMesh, albedo := t.currentAlbedo,
          framebuffer := t.currentFramebuffer, model, hasShadows := true,
          samplerIndex := t.samplerCombination } hw
      have hinv' := groupingInv_insert hinv t.currentShader t.currentMaterial
        { mesh := t.builtins.sphereMesh, albedo := t.currentAlbedo,
          framebuffer := t.currentFramebuffer, model, hasShadows := true,
          samplerIndex := t.samplerCombination }
      rw [← hord] at hinv'
      have := ih (t.drawSphere model) (tr ++ [(t.currentShader, t.currentMaterial, _)])
        hw' hinv'
      simpa [targetRun, targetStep, targetTrace, drawnOrder, Target.drawSphere] using this

/-- C1: over any interleaving of `draw*` calls with shader/material state
changes on a fresh `Target`, every order lands in the bucket matching the
shader and material current at its call, buckets traverse in
first-occurrence order (shaders, then materials within a shader), orders
keep insertion order — and in particular four `draw_cube` calls under one
shader with materials A, B, C, A give one shader bucket with material
buckets A, B, C where bucket A holds the first and fourth orders. -/
theorem target_order_grouping :
    (∀ (M L : Type) (b : Builtins) (evs : List (TargetEv M)),
      GroupingInv (targetRun (Target.new (M := M) (L := L) b) evs).ordersByShader
        (targetTrace (Target.new (M := M) (L := L) b) evs)) ∧
    (let b : Builtins := ⟨0, 1, 2, 3, 4, 5, 6, 7, 8, 9⟩
     let evs : List (TargetEv Nat) :=
       [.setMaterial 10, .drawCube 100, .setMaterial 11, .drawCube 101,
        .setMaterial 12, .drawCube 102, .setMaterial 10, .drawCube 103]
     (targetRun (Target.new (M := Nat) (L := Unit) b) evs).ordersByShader =
       [⟨0, [⟨10, [⟨6, 5, none, 100, true, 0⟩, ⟨6, 5, none, 103, true, 0⟩]⟩,
             ⟨11, [⟨6, 5, none, 101, true, 0⟩]⟩,
             ⟨12, [⟨6, 5, none, 102, true, 0⟩]⟩]⟩]) := by
  constructor
  · intro M L b evs
    have h := targetRun_grouping evs (Target.new (M := M) (L := L) b) [] rfl
      ⟨rfl, fun _ => rfl, fun _ _ => rfl⟩
    simpa using h.2
  · rfl

/-! ### C9: wireframe duplicates -/

theorem matsFor_pushWireframe_new {M : Type} {wf : Nat} (white : Nat) (o : Order M)
    {bs : List (OrdersByShader M)} (h : bucketFor wf bs = none) :
    matsFor wf (pushWireframe wf white o bs) = [⟨white, [o]⟩] := by
  induction bs with
  | nil => simp [matsFor, bucketFor, pushWireframe, List.find?]
  | cons so rest ih =>
    simp only [bucketFor, List.find?] at h
    cases hcmp : (so.shader == wf) with
    | true => rw [hcmp] at h; exact Option.noConfusion h
    | false =>
      rw [hcmp] at h
      have hne : ¬ so.shader = wf := by simpa using hcmp
      simp only [pushWireframe, if_neg hne]
      simp only [matsFor, bucketFor, List.find?, hcmp]
      exact ih h

theorem matsFor_pushWireframe_found {M : Type} {wf : Nat} (white : Nat) (o : Order M)
    {bs : List (OrdersByShader M)} {so : OrdersByShader M}
    (h : bucketFor wf bs = some so) :
    matsFor wf (pushWireframe wf white o bs) = pushFirstMat o so.ordersByMaterial := by
  induction bs with
  | nil => simp [bucketFor, List.find?] at h
  | cons sb rest ih =>
    simp only [bucketFor, List.find?] at h
    cases hcmp : (sb.shader == wf) with
    | true =>
      rw [hcmp] at h
      have heq : sb.shader = wf := by simpa using hcmp
      obtain rfl : sb = so := by injection h
      simp [pushWireframe, if_pos heq, matsFor, bucketFor, List.find?, heq]
    | false =>
      rw [hcmp] at h
      have hne : ¬ sb.shader = wf := by simpa using hcmp
      simp only [pushWireframe, if_neg hne]
      simp only [matsFor, bucketFor, List.find?, hcmp]
      exact ih h

theorem matsFor_pushWireframe_ne {M : Type} {sh' wf : Nat} (white : Nat) (o : Order M)
    (bs : List (OrdersByShader M)) (h : sh' ≠ wf) :
    matsFor sh' (pushWireframe wf white o bs) = matsFor sh' bs := by
  induction bs with
  | nil =>
    simp [matsFor, bucketFor, pushWireframe, List.find?,
      show (wf == sh') = false by simp [Ne.symm h]]
  | cons so rest ih =>
    by_cases hso : so.shader = wf
    · simp [matsFor, bucketFor, pushWireframe, if_pos hso, List.find?,
        show (so.shader == sh') = false by simp [hso, Ne.symm h]]
    · simp only [pushWireframe, if_neg hso]
      simp only [matsFor, bucketFor, List.find?] at ih ⊢
      cases hcmp : (so.shader == sh')
      all_goals simp only [hcmp] at ih ⊢
      all_goals (first | rfl | exact ih)

theorem addOrder_wireframe {M L : Type} (t : Target M L) (o : Order M)
    (hw : t.wireframes = true) :
    (t.addOrder o).ordersByShader =
      pushWireframe t.builtins.wireframeShader t.builtins.whiteMaterial o
        (pushOrderShader t.currentShader t.currentMaterial o t.ordersByShader) := by
  unfold Target.addOrder
  cases ho : o.hasShadows <;> simp [ho, hw]

/-- C9: with wireframe mode enabled, `add_order` appends a duplicate of the
order into the builtin wireframe shader's bucket: into its FIRST material
sub-bucket whatever that sub-bucket's material is — independent of the
current material — and, when the wireframe bucket does not yet exist after
the main insertion, creates it holding the builtin white material; all
other shader buckets are exactly those produced by the main insertion. -/
theorem target_wireframe_duplicate {M L : Type} (t : Target M L) (o : Order M)
    (hw : t.wireframes = true) :
    ((t.addOrder o).ordersByShader =
      pushWireframe t.builtins.wireframeShader t.builtins.whiteMaterial o
        (pushOrderShader t.currentShader t.currentMaterial o t.ordersByShader)) ∧
    (∀ sh' : Nat, sh' ≠ t.builtins.wireframeShader →
      matsFor sh' (t.addOrder o).ordersByShader =
      matsFor sh'
        (pushOrderShader t.currentShader t.currentMaterial o t.ordersByShader)) ∧
    (bucketFor t.builtins.wireframeShader
        (pushOrderShader t.currentShader t.currentMaterial o t.ordersByShader) = none →
      matsFor t.builtins.wireframeShader (t.addOrder o).ordersByShader =
        [⟨t.builtins.whiteMaterial, [o]⟩]) ∧
    (∀ (mo : OrdersByMaterial M) (ms : List (OrdersByMaterial M)),
      matsFor t.builtins.wireframeShader
        (pushOrderShader t.currentShader t.currentMaterial o t.ordersByShader) =
        mo :: ms →
      matsFor t.builtins.wireframeShader (t.addOrder o).ordersByShader =
        ⟨mo.material, mo.orders ++ [o]⟩ :: ms) := by
  have hdec := addOrder_wireframe t o hw
  refine ⟨hdec, ?_, ?_, ?_⟩
  · intro sh' hsh
    rw [hdec]
    exact matsFor_pushWireframe_ne _ o _ hsh
  · intro hnone
    rw [hdec]
    exact matsFor_pushWireframe_new _ o hnone
  · intro mo ms hmats
    rw [hdec]
    cases hbf : bucketFor t.builtins.wireframeShader
        (pushOrderShader t.currentShader t.currentMaterial o t.ordersByShader) with
    | none =>
      simp only [matsFor, hbf] at hmats
      exact List.noConfusion hmats
    | some so =>
      have hms : so.ordersByMaterial = mo :: ms := by
        simp only [matsFor, hbf] at hmats
        exact hmats
      rw [matsFor_pushWireframe_found _ o hbf, hms]
      rfl

/-- C9 witness: a wireframe-enabled target whose wireframe bucket (shader 1)
already holds a sub-bucket of material 99; although the current material is
50, the duplicate of a new order is appended to the material-99 sub-bucket. -/
theorem target_wireframe_duplicate_witness :
    let b : Builtins := ⟨0, 1, 2, 3, 4, 5, 6, 7, 8, 9⟩
    let old : Order Nat := ⟨6, 5, none, 100, true, 0⟩
    let o : Order Nat := ⟨6, 5, none, 200, true, 0⟩
    let t : Target Nat Unit :=
      { Target.new (M := Nat) (L := Unit) b with
                          wireframes := true,
                          currentMaterial := 50,
                          ordersByShader := [⟨1, [⟨99, [old]⟩]⟩] }
    matsFor 1 (t.addOrder o).ordersByShader = [⟨99, [old, o]⟩] := by
  intro b old o t
  exact (target_wireframe_duplicate t o rfl).2.2.2 ⟨99, [old]⟩ [] rfl

/-! ## Texel-snap stabilization (src/tegne/src/renderer/forward_renderer.rs)

Modelled from the spec: the math primitives (`tegne_math::Vector4`,
`tegne_math::Matrix4`) are repository code not under `src/`; per spec §6
they are 4-component vectors and column-major 4×4 matrices with standard
multiplication, and `col_w` is the translation column.  Rounding is kept
abstract (`rnd`, applied componentwise) since both the code and the spec
use the same "round to nearest texel" operation. -/

/-- Modelled from the spec: `tegne_math::Vector4` (not under `src/`), a
4-component rational vector. -/
structure Vector4 where
  x : ℚ
  y : ℚ
  z : ℚ
  w : ℚ
  deriving DecidableEq, Repr

/-- Componentwise vector addition. -/
def Vector4.add (a b : Vector4) : Vector4 :=
  ⟨a.x + b.x, a.y + b.y, a.z + b.z, a.w + b.w⟩

/-- Componentwise vector subtraction (`rounded_origin - shadow_origin`). -/
def Vector4.sub (a b : Vector4) : Vector4 :=
  ⟨a.x - b.x, a.y - b.y, a.z - b.z, a.w - b.w⟩

/-- Scalar multiplication (`shadow_origin *= size / 2.0` etc.). -/
def Vector4.smul (a : Vector4) (s : ℚ) : Vector4 :=
  ⟨a.x * s, a.y * s, a.z * s, a.w * s⟩

/-- Componentwise rounding (`Vector4::round`), with the rounding function
abstracted. -/
def Vector4.roundWith (a : Vector4) (rnd : ℚ → ℚ) : Vector4 :=
  ⟨rnd a.x, rnd a.y, rnd a.z, rnd a.w⟩

/-- Modelled from the spec: `tegne_math::Matrix4` (not under `src/`), a
column-major 4×4 rational matrix; `col_w` holds the translation. -/
structure Matrix4 where
  col_x : Vector4
  col_y : Vector4
  col_z : Vector4
  col_w : Vector4
  deriving DecidableEq, Repr

/-- Matrix–vector multiplication (column-major). -/
def Matrix4.mulVec (m : Matrix4) (v : Vector4) : Vector4 :=
  (m.col_x.smul v.x).add ((m.col_y.smul v.y).add
    ((m.col_z.smul v.z).add (m.col_w.smul v.w)))

/-- Matrix–matrix multiplication. -/
def Matrix4.mul (a b : Matrix4) : Matrix4 :=
  ⟨a.mulVec b.col_x, a.mulVec b.col_y, a.mulVec b.col_z, a.mulVec b.col_w⟩

instance : Mul Matrix4 := ⟨Matrix4.mul⟩

theorem Matrix4.mul_def (a b : Matrix4) :
    a * b = ⟨a.mulVec b.col_x, a.mulVec b.col_y, a.mulVec b.col_z, a.mulVec b.col_w⟩ :=
  rfl

/-- Adds `(dx, dy)` to a matrix's translation column (`col_w.x += dx;
col_w.y += dy`). -/
def addTranslation (dx dy : ℚ) (m : Matrix4) : Matrix4 :=
  { m with col_w := { m.col_w with x := m.col_w.x + dx, y := m.col_w.y + dy } }

/-- The texel-snap stabilization exactly as the code performs it
(forward_renderer.rs 144–156): compose `ortho * view`, transform the world
origin `(0,0,0,1)`, scale by `shadow_map_size / 2`, round, take the
remainder `rounded - scaled`, scale by `2 / shadow_map_size`, add the
remainder's x and y to the ortho matrix's translation column, recompose. -/
def snapStabilize (rnd : ℚ → ℚ) (lightOrtho lightView : Matrix4)
    (shadowMapSize : ℚ) : Matrix4 :=
  let shadowMatrix := lightOrtho * lightView
  let shadowOrigin := Vector4.mk 0 0 0 1
  let shadowOrigin := shadowMatrix.mulVec shadowOrigin
  let shadowOrigin := shadowOrigin.smul (shadowMapSize / 2)
  let roundedOrigin := shadowOrigin.roundWith rnd
  let roundOffset := roundedOrigin.sub shadowOrigin
  let roundOffset := roundOffset.smul (2 / shadowMapSize)
  let lightOrtho := addTranslation roundOffset.x roundOffset.y lightOrtho
  lightOrtho * lightView

/-- The sub-texel remainder computed by those steps, converted back to
projection units. -/
def snapOffset (rnd : ℚ → ℚ) (lightOrtho lightView : Matrix4)
    (shadowMapSize : ℚ) : Vector4 :=
  let origin := (lightOrtho * lightView).mulVec (Vector4.mk 0 0 0 1)
  let scaled := origin.smul (shadowMapSize / 2)
  ((scaled.roundWith rnd).sub scaled).smul (2 / shadowMapSize)

/-- The stabilization as the spec words it: transform the world origin by
the light's view-projection matrix, scale by `shadow_map_resolution / 2`,
round to the nearest texel, compute the sub-texel remainder, convert the
remainder back with `* 2 / shadow_map_resolution`, and add it to the
orthographic projection's translation component, then recompose. -/
def snapStabilizeSpec (rnd : ℚ → ℚ) (ortho view : Matrix4) (res : ℚ) : Matrix4 :=
  let origin := (ortho * view).mulVec (Vector4.mk 0 0 0 1)
  let scaled := origin.smul (res / 2)
  let remainder := (scaled.roundWith rnd).sub scaled
  let offset := remainder.smul (2 / res)
  addTranslation offset.x offset.y ortho * view

/-- C4: the code's texel snap performs exactly the spec's steps in the
spec's order, and — because adding to the ortho matrix's translation column
commutes to clip space when the view matrix is affine (bottom row
`(0,0,0,1)`) — the snap offset is applied in the light's homogeneous-clip
space, i.e. after the whole `ortho * view` projection, not in world
space. -/
theorem forward_renderer_texel_snap (rnd : ℚ → ℚ) (ortho view : Matrix4)
    (res : ℚ) :
    snapStabilize rnd ortho view res = snapStabilizeSpec rnd ortho view res ∧
    (view.col_x.w = 0 → view.col_y.w = 0 → view.col_z.w = 0 →
      view.col_w.w = 1 →
      snapStabilize rnd ortho view res =
        addTranslation (snapOffset rnd ortho view res).x
          (snapOffset rnd ortho view res).y (ortho * view)) := by
  constructor
  · rfl
  · intro hx hy hz hw
    show addTranslation (snapOffset rnd ortho view res).x
        (snapOffset rnd ortho view res).y ortho * view = _
    generalize (snapOffset rnd ortho view res).x = dx
    generalize (snapOffset rnd ortho view res).y = dy
    simp only [Matrix4.mul_def, addTranslation, Matrix4.mulVec, Vector4.add,
      Vector4.smul, hx, hy, hz, hw]
    simp only [Matrix4.mk.injEq, Vector4.mk.injEq]
    and_intros <;> ring_nf

/-- C4 witness: with an affine (identity) view matrix and a concrete ortho
matrix at resolution 2048, the snapped matrix equals the clip-space
translation of `ortho * view` by the computed sub-texel offset. -/
theorem forward_renderer_texel_snap_witness :
    let viewM : Matrix4 := ⟨⟨1, 0, 0, 0⟩, ⟨0, 1, 0, 0⟩, ⟨0, 0, 1, 0⟩, ⟨0, 0, 0, 1⟩⟩
    let ortho : Matrix4 :=
      ⟨⟨1/2, 0, 0, 0⟩, ⟨0, 1/2, 0, 0⟩, ⟨0, 0, 1, 0⟩, ⟨3/8, 5/8, 0, 1⟩⟩
    snapStabilize id ortho viewM 2048 =
      addTranslation (snapOffset id ortho viewM 2048).x
        (snapOffset id ortho viewM 2048).y (ortho * viewM) := by
  intro viewM ortho
  exact (forward_renderer_texel_snap id ortho viewM 2048).2 rfl rfl rfl rfl

/-! ## Forward renderer color pass (src/tegne/src/renderer/forward_renderer.rs)

The per-order draw loop (lines 231–244): for each shader bucket, bind the
shader, then for each material bucket `bind_material(..)?`, then for each
order `draw_order(..)?`.  Inside `draw_order` the mesh's vertex and index
buffers resolve fallibly (`vb?` / `ib?`).  Every failure is propagated with
`?`.  `E` stands for `crate::error::Error`; resolved handles carry their
fallible lookups as `Except` values. -/

/-- The mesh data `draw_order` pulls out of `order.mesh.with(..)`:
vertex buffer, index buffer (both fallible) and the index count. -/
structure RMesh (E : Type) where
  vertexBuffer : Except E Nat
  indexBuffer : Except E Nat
  indexCount : Nat

/-- One order as the renderer consumes it. -/
structure ROrder (E : Type) where
  mesh : RMesh E
  albedoIndex : Nat
  framebufferDescriptor : Option Nat
  samplerIndex : Nat
  castShadows : Bool

/-- One material bucket with its fallible descriptor lookup
(`material.with(|m| m.descriptor())?`). -/
structure RMatBucket (E : Type) where
  materialDescriptor : Except E Nat
  orders : List (ROrder E)

/-- One shader bucket. -/
structure RShaderBucket (E : Type) where
  shader : Nat
  mats : List (RMatBucket E)

/-- `ForwardRenderer::draw_order`: binds push constants, then
`cmd_bind_vertex_buffer(cmd, vb?)`, `cmd_bind_index_buffer(cmd, ib?)`,
draws, and adds the index count to `drawn_indices`. -/
def drawOrder {E : Type} (o : ROrder E) (drawnIndices : Nat) : Except E Nat :=
  match o.mesh.vertexBuffer with
  | .error e => .error e
  | .ok _ =>
      match o.mesh.indexBuffer with
      | .error e => .error e
      | .ok _ => .ok (drawnIndices + o.mesh.indexCount)

/-- The inner order loop: `draw_order(..)?`, counting draw calls. -/
def runOrders {E : Type} (os : List (ROrder E)) (drawn drawCalls : Nat) :
    Except E (Nat × Nat) :=
  match os with
  | [] => .ok (drawn, drawCalls)
  | o :: rest =>
      match drawOrder o drawn with
      | .error e => .error e
      | .ok drawn' => runOrders rest drawn' (drawCalls + 1)

/-- The material loop: `bind_material(..)?` then the order loop, counting
materials used. -/
def runMats {E : Type} (ms : List (RMatBucket E)) (drawn matsUsed drawCalls : Nat) :
    Except E (Nat × Nat × Nat) :=
  match ms with
  | [] => .ok (drawn, matsUsed, drawCalls)
  | m :: rest =>
      match m.materialDescriptor with
      | .error e => .error e
      | .ok _ =>
          match runOrders m.orders drawn drawCalls with
          | .error e => .error e
          | .ok (drawn', dc') => runMats rest drawn' (matsUsed + 1) dc'

/-- The shader loop: bind the shader (infallible), count it, run the
material loop. -/
def runShaders {E : Type} (bs : List (RShaderBucket E))
    (drawn shadersUsed matsUsed drawCalls : Nat) :
    Except E (Nat × Nat × Nat × Nat) :=
  match bs with
  | [] => .ok (drawn, shadersUsed, matsUsed, drawCalls)
  | b :: rest =>
      match runMats b.mats drawn matsUsed drawCalls with
      | .error e => .error e
      | .ok (drawn', mu', dc') => runShaders rest drawn' (shadersUsed + 1) mu' dc'

/-- The stats the frame's `draw` returns on success. -/
structure RenderStats where
  drawnTriangles : Nat
  drawnIndices : Nat
  shadersUsed : Nat
  materialsUsed : Nat
  drawCalls : Nat
  deriving DecidableEq, Repr

/-- The color-pass order loop of `ForwardRenderer::draw`: any failure
inside propagates out of the whole frame via `?`. -/
def colorPass {E : Type} (bs : List (RShaderBucket E)) : Except E RenderStats :=
  match runShaders bs 0 0 0 0 with
  | .error e => .error e
  | .ok (drawn, sh, mu, dc) => .ok ⟨drawn / 3, drawn, sh, mu, dc⟩

/-- Every handle referenced from the buckets resolves. -/
def AllResolve {E : Type} (bs : List (RShaderBucket E)) : Prop :=
  ∀ b ∈ bs, ∀ m ∈ b.mats, m.materialDescriptor.isOk = true ∧
    ∀ o ∈ m.orders, o.mesh.vertexBuffer.isOk = true ∧
      o.mesh.indexBuffer.isOk = true

theorem exceptIsOk_ok {E A : Type} (a : A) : (Except.ok (ε := E) a).isOk = true :=
  rfl

theorem exceptIsOk_error {E A : Type} (e : E) :
    (Except.error (α := A) e).isOk = false :=
  rfl

theorem runOrders_isOk {E : Type} (os : List (ROrder E)) :
    ∀ drawn drawCalls : Nat, (runOrders os drawn drawCalls).isOk = true ↔
      ∀ o ∈ os, o.mesh.vertexBuffer.isOk = true ∧ o.mesh.indexBuffer.isOk = true := by
  induction os with
  | nil => intro drawn dc; simp [runOrders, exceptIsOk_ok]
  | cons o rest ih =>
    intro drawn dc
    match hvb : o.mesh.vertexBuffer with
    | .error e =>
      simp [runOrders, drawOrder, hvb, exceptIsOk_error]
    | .ok vb =>
      match hib : o.mesh.indexBuffer with
      | .error e =>
        simp [runOrders, drawOrder, hvb, hib, exceptIsOk_error]
      | .ok ib =>
        simp only [runOrders, drawOrder, hvb, hib, List.mem_cons]
        rw [ih]
        constructor
        · intro h
          rintro x (rfl | hx)
          · exact ⟨by rw [hvb]; rfl, by rw [hib]; rfl⟩
          · exact h x hx
        · intro h x hx
          exact h x (Or.inr hx)

theorem runMats_isOk {E : Type} (ms : List (RMatBucket E)) :
    ∀ drawn matsUsed drawCalls : Nat,
      (runMats ms drawn matsUsed drawCalls).isOk = true ↔
      ∀ m ∈ ms, m.materialDescriptor.isOk = true ∧
        ∀ o ∈ m.orders, o.mesh.vertexBuffer.isOk = true ∧
          o.mesh.indexBuffer.isOk = true := by
  induction ms with
  | nil => intro drawn mu dc; simp [runMats, exceptIsOk_ok]
  | cons m rest ih =>
    intro drawn mu dc
    match hmd : m.materialDescriptor with
    | .error e => simp [runMats, hmd, exceptIsOk_error]
    | .ok d =>
      match hro : runOrders m.orders drawn dc with
      | .error e =>
        have hnot : ¬ ∀ o ∈ m.orders, o.mesh.vertexBuffer.isOk = true ∧
            o.mesh.indexBuffer.isOk = true := by
          intro hall
          have h2 := (runOrders_isOk m.orders drawn dc).mpr hall
          rw [hro] at h2
          exact Bool.noConfusion h2
        simp only [runMats, hmd, hro, List.mem_cons, exceptIsOk_error]
        constructor
        · intro h
          exact Bool.noConfusion h
        · intro h
          exact absurd (h m (Or.inl rfl)).2 hnot
      | .ok p =>
        have hall : ∀ o ∈ m.orders, o.mesh.vertexBuffer.isOk = true ∧
            o.mesh.indexBuffer.isOk = true :=
          (runOrders_isOk m.orders drawn dc).mp (by rw [hro]; rfl)
        obtain ⟨drawn', dc'⟩ := p
        simp only [runMats, hmd, hro, List.mem_cons]
        rw [ih]
        constructor
        · intro h
          rintro x (rfl | hx)
          · exact ⟨by rw [hmd]; rfl, hall⟩
          · exact h x hx
        · intro h x hx
          exact h x (Or.inr hx)

theorem runShaders_isOk {E : Type} (bs : List (RShaderBucket E)) :
    ∀ drawn shadersUsed matsUsed drawCalls : Nat,
      (runShaders bs drawn shadersUsed matsUsed drawCalls).isOk = true ↔
      AllResolve bs := by
  induction bs with
  | nil => intro d s m c; simp [runShaders, AllResolve, exceptIsOk_ok]
  | cons b rest ih =>
    intro d s m c
    match hrm : runMats b.mats d m c with
    | .error e =>
      have hnot : ¬ (∀ mb ∈ b.mats, mb.materialDescriptor.isOk = true ∧
          ∀ o ∈ mb.orders, o.mesh.vertexBuffer.isOk = true ∧
            o.mesh.indexBuffer.isOk = true) := by
        intro hall
        have h2 := (runMats_isOk b.mats d m c).mpr hall
        rw [hrm] at h2
        exact Bool.noConfusion h2
      simp only [runShaders, hrm, AllResolve, List.mem_cons]
      constructor
      · intro h
        exact Bool.noConfusion h
      · intro h
        exact absurd (fun mb hmb => h b (Or.inl rfl) mb hmb) hnot
    | .ok p =>
      have hall := (runMats_isOk b.mats d m c).mp (by rw [hrm]; rfl)
      obtain ⟨d', m', c'⟩ := p
      simp only [runShaders, hrm, AllResolve, List.mem_cons] at ih ⊢
      rw [ih]
      constructor
      · intro h
        rintro x (rfl | hx)
        · exact hall
        · exact h x hx
      · intro h x hx
        exact h x (Or.inr hx)

/-- C5 counterexample: one shader bucket, one material bucket whose first
order's vertex buffer fails to resolve (error 7) while a second, healthy
order follows; the frame's draw loop returns the error — it does not skip
the failed order, does not draw the second, and does not return success. -/
theorem forward_renderer_draw_loop_counterexample :
    let bad : ROrder Nat := ⟨⟨.error 7, .ok 1, 9⟩, 0, none, 0, true⟩
    let good : ROrder Nat := ⟨⟨.ok 0, .ok 1, 9⟩, 0, none, 0, true⟩
    colorPass [⟨4, [⟨.ok 5, [bad, good]⟩]⟩] = .error 7 ∧
    (colorPass [⟨4, [⟨.ok 5, [bad, good]⟩]⟩]).isOk = false := by
  exact ⟨rfl, rfl⟩

/-- C5 amended: a resolution failure of a handle referenced by an order (or
its material) is propagated out of the frame's draw call by `?`, aborting
the remaining orders; the frame returns success exactly when every material
descriptor and every order's vertex and index buffer resolve. -/
theorem forward_renderer_draw_loop_propagates {E : Type}
    (bs : List (RShaderBucket E)) :
    (colorPass bs).isOk = true ↔ AllResolve bs := by
  unfold colorPass
  match hrs : runShaders bs 0 0 0 0 with
  | .error e =>
    have h2 := runShaders_isOk bs 0 0 0 0
    rw [hrs] at h2
    simpa [exceptIsOk_error] using h2
  | .ok p =>
    have h2 := runShaders_isOk bs 0 0 0 0
    rw [hrs] at h2
    obtain ⟨d, s, m, c⟩ := p
    simpa [exceptIsOk_ok] using h2

/-- C5 amended-claim witness: on a fully-resolving bucket list the loop
returns success. -/
theorem forward_renderer_draw_loop_propagates_witness :
    let good : ROrder Nat := ⟨⟨.ok 0, .ok 1, 9⟩, 0, none, 0, true⟩
    (colorPass [⟨4, [⟨.ok 5, [good, good]⟩]⟩]).isOk = true := by
  intro good
  refine (forward_renderer_draw_loop_propagates _).mpr ?_
  intro b hb m hm
  rcases List.mem_singleton.mp hb with rfl
  rcases List.mem_singleton.mp hm with rfl
  refine ⟨rfl, ?_⟩
  intro o ho
  rcases List.mem_cons.mp ho with rfl | ho
  · exact ⟨rfl, rfl⟩
  · rcases List.mem_singleton.mp ho with rfl
    exact ⟨rfl, rfl⟩
